import Mathlib

/-!
Verification of the TallerSIMD character-counting benchmark.

The repository compares a scalar (serial) character counter against an
SSE4.2 vector counter over randomly generated, alignment-controlled byte
buffers.  This file shallowly embeds the core routines:

* `SerialCharacterCounter.countAllCharacters` / `countCharacter`
  (char_count_serial.cpp, lines 13-43);
* `SIMDCharacterCounter.countCharacterOccurrences` (the 16-byte block
  compare / movemask / popcount kernel, char_count_simd.cpp lines 52-82),
  `findUniqueCharacters` and `countAllCharacters` (lines 10-49);
* `RandomStringGenerator.generateRandomUTF8` (utils.cpp lines 105-129),
  `generateAlignedString` (58-91), `freeAlignedString` (93-99) and the free
  function `isPowerOfTwo` (301-303).

Buffers are byte lists; `char` / byte values are `Nat` (byte-level equality
is what every compared operation uses, so signedness of `char` is
irrelevant); `size_t` arithmetic is `Nat` with explicit wrap modulo 2^64
where the source can underflow.  `std::unordered_map<char, size_t>` is
modelled as a partial function from byte value to count (`none` = key
absent), which captures exactly the observable key-set / per-key-count
semantics of the map.
-/

/-- Read `str[i]` from a buffer.  Out-of-range reads return 0; every theorem
below keeps its reads inside the modelled buffer. -/
def byteAt (str : List Nat) (i : Nat) : Nat :=
  str.getD i 0

/-- Number of indices `j` with `lo ≤ j < hi` and `str[j] == target`: the
byte-match count over an index interval.  This is the common denotation both
counters are proved to compute. -/
def countRange (str : List Nat) (target lo hi : Nat) : Nat :=
  (List.range' lo (hi - lo)).countP (fun j => byteAt str j == target)

/-- `charCounts[k]++` on the map model: `operator[]` inserts the key with
value 0 when absent, then the count is incremented. -/
def mapIncr (m : Nat → Option Nat) (k : Nat) : Nat → Option Nat :=
  fun c => if c = k then some ((m k).getD 0 + 1) else m c

namespace SerialCharacterCounter

/-- `SerialCharacterCounter::countAllCharacters` (char_count_serial.cpp
lines 13-35): `for (size_t i = 0; i < length - 1; ++i) charCounts[str[i]]++;`
(timing/metrics side effects are not behavioural and are not modelled).
Domain note: every caller passes `length ≥ 16`; at `length = 0` the `size_t`
bound `length - 1` underflows in the source, so `length ≥ 1` is assumed by
all theorems below. -/
def countAllCharacters (str : List Nat) (length : Nat) : Nat → Option Nat :=
  (List.range (length - 1)).foldl (fun m i => mapIncr m (byteAt str i)) (fun _ => none)

/-- `SerialCharacterCounter::countCharacter` (char_count_serial.cpp lines
37-43): `auto allCounts = countAllCharacters(str, length, metrics); return
allCounts[target];` — `operator[]` yields 0 when the key is absent. -/
def countCharacter (str : List Nat) (length target : Nat) : Nat :=
  (countAllCharacters str length target).getD 0

end SerialCharacterCounter

namespace SIMDCharacterCounter

/-- One 16-byte block step (char_count_simd.cpp lines 60-72):
`_mm_cmpeq_epi8` produces a per-lane equality mask, `_mm_movemask_epi8`
packs the 16 lane bits, and `_mm_popcnt_u32` counts the set bits.  The sum
added to the running total is therefore the number of lanes `j < 16` with
`str[i + j] == target`. -/
def blockPopcount (str : List Nat) (target i : Nat) : Nat :=
  (List.range 16).countP (fun j => byteAt str (i + j) == target)

/-- The block loop `for (; i <= length - 16; i += 16)` of
`countCharacterOccurrences`, in `size_t` semantics: `bound` is the `size_t`
value of `length - 16`, and `i` advances by 16 modulo 2^64.  The explicit
iteration budget `fuel` makes the recursion structural; `none` means the
loop did not exit within the budget.  By `simdLoop_none_of_wrap` below, when
`bound ≥ 2^64 - 16` (i.e. `length < 16`, where the source subtraction
wrapped) the loop never exits, for every budget, so `none` faithfully models
the source loop running forever (reading past the buffer). -/
def simdLoop (str : List Nat) (target bound : Nat) : Nat → Nat → Nat → Option (Nat × Nat)
  | 0, _, _ => none
  | fuel + 1, i, total =>
    if i ≤ bound then
      simdLoop str target bound fuel ((i + 16) % 2 ^ 64) (total + blockPopcount str target i)
    else
      some (i, total)

/-- `SIMDCharacterCounter::countCharacterOccurrences` (char_count_simd.cpp
lines 52-82).  `length - 16` is computed in `size_t`, so for `length < 16`
it wraps to `2^64 - (16 - length)`.  The budget `length / 16 + 2` is enough
for every terminating execution (each iteration advances `i` by 16, so at
most `length / 16 + 1` iterations run when `16 ≤ length`, and one budget
unit is left for the final guard test); when `length < 16` the loop never
exits for any budget (`simdLoop_none_of_wrap`) and the result is `none`.
After the loop exits at index `i`, the scalar remainder
`for (; i < length; ++i) if (str[i] == char_x) ++total;` contributes
`countRange str target i length`. -/
def countCharacterOccurrences (str : List Nat) (length target : Nat) : Option Nat :=
  match simdLoop str target (if 16 ≤ length then length - 16 else 2 ^ 64 - (16 - length))
      (length / 16 + 2) 0 0 with
  | none => none
  | some p => some (p.2 + countRange str target p.1 length)

/-- `SIMDCharacterCounter::findUniqueCharacters` (char_count_simd.cpp lines
44-49): `for (size_t i = 0; i < length; ++i) charCounts[str[i]] = 0;`. -/
def findUniqueCharacters (str : List Nat) (n : Nat) : Nat → Option Nat :=
  (List.range n).foldl (fun m i => fun c => if c = byteAt str i then some 0 else m c)
    (fun _ => none)

/-- `SIMDCharacterCounter::countAllCharacters` (char_count_simd.cpp lines
10-36): a scalar pre-pass `findUniqueCharacters(str, length - 1, ...)`
enumerates the distinct content bytes, then each key's count is set by
`countCharacterOccurrences(str, length - 1, key)`.  When the content length
`length - 1` is between 1 and 15 the key map is non-empty and every kernel
invocation runs forever (`countCharacterOccurrences_none_of_lt16`), so the
whole call produces no result: `none`.  When the content is empty no kernel
call is made and the empty map is returned.  Domain note: `length = 0`
underflows in the source (`size_t`) and is outside the modelled domain
(callers enforce `length ≥ 16`). -/
def countAllCharacters (str : List Nat) (length : Nat) : Option (Nat → Option Nat) :=
  if length - 1 = 0 ∨ 16 ≤ length - 1 then
    some (fun c =>
      if findUniqueCharacters str (length - 1) c = none then none
      else countCharacterOccurrences str (length - 1) c)
  else none

end SIMDCharacterCounter

/-- The `std::mt19937` engine together with the two
`std::uniform_int_distribution`s of `generateRandomUTF8` is modelled as a
draw oracle: `d1 t` (resp. `d2 t`) is the value `dist1` (resp. `dist2`)
returns when it is the `t`-th distribution call made on the engine.  A seed
fully determines the oracle; `RandomStringGenerator::resetSeed` (utils.cpp
lines 54-56) restores the engine to the initial state of the stored seed, so
a fill performed after a reset consumes the same oracle starting again at
call 0 — which is how the two-run claims below are stated.  The
distributions guarantee `d1` draws lie in [32,126] (`0x20..0x7E`) and `d2`
draws in [194,244] (`0xC2..0xF4`); theorems needing this take it as a
hypothesis on the oracle. -/
structure RngModel where
  d1 : Nat → Nat
  d2 : Nat → Nat

/-- Size classification of a UTF-8 lead byte (utils.cpp lines 114-116). -/
def charSizeOf (lead : Nat) : Nat :=
  if lead < 0xE0 then 2 else if lead < 0xF0 then 3 else 4

namespace RandomStringGenerator

/-- The store sequence of the `generateRandomUTF8` loop (utils.cpp lines
109-127) as (index, value) pairs in program order.  `cl = length - 1` is the
loop bound, `t` counts distribution calls made so far, `i` is the current
write index.  Draw accounting mirrors the source: the branch test
`dist1(rng) % 4 == 0` consumes draw `t`; the multibyte branch consumes the
lead draw `t+1` and continuation draws `t+2 .. t+cs`, resuming at
`t+cs+1`; the inline ASCII branch consumes draw `t+1`, resuming at `t+2`.
The `break` (`i + charSize >= length - 1`) ends the store sequence.  Every
iteration advances `i` by at least 1 and consumes one unit of `fuel`, so a
budget of `fuel ≥ cl - i` is never exhausted; the function is always run
with `fuel = cl`. -/
def genWrites (R : RngModel) : Nat → Nat → Nat → Nat → List (Nat × Nat)
  | 0, _, _, _ => []
  | fuel + 1, cl, t, i =>
    if i < cl then
      if R.d1 t % 4 = 0 then
        let lead := R.d2 (t + 1)
        let cs := charSizeOf lead
        if cl ≤ i + cs then []
        else
          (i, lead) ::
            ((List.range (cs - 1)).map (fun j => (i + 1 + j, 128 + R.d1 (t + 2 + j) % 64)) ++
              genWrites R fuel cl (t + cs + 1) (i + cs))
      else
        (i, R.d1 (t + 1)) :: genWrites R fuel cl (t + 2) (i + 1)
    else []

/-- Apply a store sequence to a buffer, in order. -/
def applyWrites (init : List Nat) (ws : List (Nat × Nat)) : List Nat :=
  ws.foldl (fun b w => b.set w.1 w.2) init

/-- `RandomStringGenerator::generateRandomUTF8` (utils.cpp lines 105-129):
run the store loop over the content region of a buffer whose prior contents
are `init`, then `buffer[length - 1] = '\0'`.  At `length = 0` the `size_t`
loop bound `length - 1` underflows in the source (the function is only ever
called with `length ≥ 1`, since `generateAlignedString` rejects 0): `none`
marks that out-of-domain case. -/
def generateRandomUTF8 (R : RngModel) (init : List Nat) (length : Nat) : Option (List Nat) :=
  if length = 0 then none
  else some ((applyWrites init (genWrites R (length - 1) (length - 1) 0 0)).set (length - 1) 0)

end RandomStringGenerator

/-- `isPowerOfTwo` (utils.cpp lines 301-303):
`value > 0 && (value & (value - 1)) == 0`. -/
def isPowerOfTwo (value : Nat) : Bool :=
  decide (0 < value) && (value &&& (value - 1) == 0)

/-- The first address `≥ ptr` that is a multiple of `alignment` — the
aligned address `std::align` computes for a power-of-two alignment. -/
def alignUp (alignment ptr : Nat) : Nat :=
  ((ptr + alignment - 1) / alignment) * alignment

/-- `std::align(alignment, size, ptr, space)` as documented (and as
libstdc++ implements it, with the overflow-free comparison
`size + (aligned - ptr) ≤ space`): the first aligned address inside the
block, or null (`none`) when the remaining space cannot hold `size` bytes.
`RandomStringGenerator::align` (utils.cpp lines 101-103) forwards to it. -/
def stdAlign (alignment size ptr space : Nat) : Option Nat :=
  let aligned := alignUp alignment ptr
  if size + (aligned - ptr) ≤ space then some aligned else none

/-- The four ways `generateAlignedString` can fail: `alignmentError` models
`throw std::invalid_argument("Alignment must be power of 2")`,
`lengthError` models `throw std::invalid_argument("Length must be greater
than 0")`, `allocationError` models `throw std::bad_alloc()`, and
`alignFailError` models `throw std::runtime_error("Failed to align
memory")`. -/
inductive AllocError where
  | alignmentError
  | lengthError
  | allocationError
  | alignFailError
deriving DecidableEq

/-- The allocator's state: `originalPointers`, the aligned-to-raw record
map, modelled as an association list whose keys stay unique (the
`unordered_map` invariant; see `keysNodup`). -/
structure AllocState where
  records : List (Nat × Nat)
deriving DecidableEq

/-- Remove every entry with key `p` (under unique keys: the one entry). -/
def mapEraseKey (rs : List (Nat × Nat)) (p : Nat) : List (Nat × Nat) :=
  rs.filter (fun r => r.1 != p)

/-- `unordered_map::find` on the association-list model. -/
def mapLookup (rs : List (Nat × Nat)) (p : Nat) : Option Nat :=
  (rs.find? (fun r => r.1 == p)).map Prod.snd

namespace RandomStringGenerator

/-- `RandomStringGenerator::generateAlignedString` (utils.cpp lines 58-91),
with the underlying `malloc` result supplied as an oracle (`none` = heap
exhaustion returns null).  The filling step (line 85 calls
`generateRandomUTF8` on the aligned region) affects memory contents, which
are modelled separately by `generateRandomUTF8`; here the pointer
computation and the `originalPointers` side effect are modelled.  Every
error path returns the state unchanged, because the source throws before
the map insert at line 88 (`originalPointers[alignedMemory] = rawMemory`,
an `operator[]` upsert, modelled by erase-then-prepend). -/
def generateAlignedString (mallocResult : Option Nat) (length alignment : Nat)
    (st : AllocState) : Except AllocError Nat × AllocState :=
  if isPowerOfTwo alignment = false then (Except.error AllocError.alignmentError, st)
  else if length = 0 then (Except.error AllocError.lengthError, st)
  else
    match mallocResult with
    | none => (Except.error AllocError.allocationError, st)
    | some raw =>
      match stdAlign alignment length raw (length + alignment - 1) with
      | none => (Except.error AllocError.alignFailError, st)
      | some aligned =>
        (Except.ok aligned, ⟨(aligned, raw) :: mapEraseKey st.records aligned⟩)

/-- `RandomStringGenerator::freeAlignedString` (utils.cpp lines 93-99):
look the aligned pointer up in `originalPointers`; when present, `free` the
recorded raw pointer (returned here as the first component) and erase the
entry; when absent, do nothing and signal nothing. -/
def freeAlignedString (st : AllocState) (p : Nat) : Option Nat × AllocState :=
  match mapLookup st.records p with
  | some raw => (some raw, ⟨mapEraseKey st.records p⟩)
  | none => (none, st)

end RandomStringGenerator

/-- One allocator call, for stating the all-sequences invariant of the
record map. -/
inductive AllocOp where
  | alloc (mallocResult : Option Nat) (length alignment : Nat)
  | dealloc (p : Nat)

/-- Run a sequence of allocator calls against a starting state. -/
def runOps (st : AllocState) : List AllocOp → AllocState
  | [] => st
  | AllocOp.alloc m L A :: rest =>
      runOps (RandomStringGenerator.generateAlignedString m L A st).2 rest
  | AllocOp.dealloc p :: rest =>
      runOps (RandomStringGenerator.freeAlignedString st p).2 rest

/-- The record-map invariant: at most one entry per aligned pointer. -/
def keysNodup (st : AllocState) : Prop :=
  (st.records.map Prod.fst).Nodup

/-- The three value ranges a `generateRandomUTF8` store can carry: an inline
ASCII byte (dist1), a UTF-8 continuation byte `0x80 + d % 0x40`, or a UTF-8
lead byte (dist2). -/
def writableByte (v : Nat) : Prop :=
  (32 ≤ v ∧ v ≤ 126) ∨ (128 ≤ v ∧ v ≤ 191) ∨ (194 ≤ v ∧ v ≤ 244)

/-- A concrete draw oracle within the distributions' ranges: `dist1` always
yields 32 (a multiple of 4, so the multibyte branch is always taken) and
`dist2` always yields 240 = 0xF0, a 4-byte lead.  Over a 15-byte content
region the fill then writes indices 0..11 and breaks at i = 12 (since
12 + 4 >= 15), leaving content indices 12..14 unwritten. -/
def fourByteRng : RngModel :=
  ⟨fun _ => 32, fun _ => 240⟩

/-- A concrete draw oracle within the distributions' ranges: `dist1` always
yields 32 and `dist2` always yields 194 = 0xC2, a 2-byte lead, so the fill
writes UTF-8 lead bytes (value 194) into the buffer. -/
def twoByteRng : RngModel :=
  ⟨fun _ => 32, fun _ => 194⟩

/-- A buffer of the minimum length the configuration layer admits
(stringLength = 16): 15 content bytes, all 97, then the 0 sentinel. -/
def minBuffer : List Nat :=
  List.replicate 15 97 ++ [0]

/-- A buffer of length 17: 16 content bytes, all 97, then the 0 sentinel —
the smallest length whose content region covers a full 16-byte block. -/
def seventeenBuffer : List Nat :=
  List.replicate 16 97 ++ [0]

/-! ### Denotation lemmas for the match count -/

theorem countRange_self (str : List Nat) (t lo : Nat) : countRange str t lo lo = 0 := by
  simp [countRange]

theorem countRange_split (str : List Nat) (t : Nat) {lo mid hi : Nat}
    (h1 : lo ≤ mid) (h2 : mid ≤ hi) :
    countRange str t lo hi = countRange str t lo mid + countRange str t mid hi := by
  have h3 : lo + 1 * (mid - lo) = mid := by omega
  have h4 : hi - mid + (mid - lo) = hi - lo := by omega
  unfold countRange
  rw [← h4, ← List.range'_append, List.countP_append, h3]

theorem countRange_zero_succ (str : List Nat) (c k : Nat) :
    countRange str c 0 (k + 1)
      = countRange str c 0 k + (if byteAt str k == c then 1 else 0) := by
  unfold countRange
  simp only [Nat.sub_zero]
  rw [List.range'_1_concat, List.countP_append]
  simp [List.countP_cons]

theorem blockPopcount_eq (str : List Nat) (t i : Nat) :
    SIMDCharacterCounter.blockPopcount str t i = countRange str t i (i + 16) := by
  unfold SIMDCharacterCounter.blockPopcount countRange
  rw [show i + 16 - i = 16 by omega, List.range'_eq_map_range, List.countP_map]
  rfl

/-! ### The SIMD block loop: divergence below 16 bytes, and its value above -/

theorem simdLoop_none_of_wrap (str : List Nat) (t bound : Nat)
    (hb : 2 ^ 64 - 16 ≤ bound) :
    ∀ fuel i total, i % 16 = 0 → i ≤ 2 ^ 64 - 16 →
      SIMDCharacterCounter.simdLoop str t bound fuel i total = none := by
  intro fuel
  induction fuel with
  | zero => intro i total h1 h2; rfl
  | succ n ih =>
    intro i total h1 h2
    simp only [SIMDCharacterCounter.simdLoop]
    rw [if_pos (le_trans h2 hb)]
    have h3 : i + 16 ≤ 2 ^ 64 := by omega
    rcases eq_or_lt_of_le h3 with he | hl
    · rw [he, Nat.mod_self]
      exact ih 0 _ (by omega) (by omega)
    · rw [Nat.mod_eq_of_lt hl]
      exact ih (i + 16) _ (by omega) (by omega)

theorem countCharacterOccurrences_none_of_lt16 (str : List Nat) (L t : Nat) (h : L < 16) :
    SIMDCharacterCounter.countCharacterOccurrences str L t = none := by
  unfold SIMDCharacterCounter.countCharacterOccurrences
  rw [if_neg (by omega)]
  rw [simdLoop_none_of_wrap str t _ (by omega) _ 0 0 (by omega) (by omega)]

theorem simdLoop_terminates (str : List Nat) (t L : Nat) (hL : 16 ≤ L) (h64 : L < 2 ^ 64) :
    ∀ fuel i total, i % 16 = 0 → i ≤ L → L + 16 ≤ i + 16 * fuel →
      ∃ j, SIMDCharacterCounter.simdLoop str t (L - 16) fuel i total
            = some (j, total + countRange str t i j) ∧ i ≤ j ∧ j ≤ L := by
  intro fuel
  induction fuel with
  | zero => intro i total h1 h2 h3; omega
  | succ n ih =>
    intro i total h1 h2 h3
    by_cases hc : i ≤ L - 16
    · have hi16 : i + 16 ≤ L := by omega
      have hmod : (i + 16) % 2 ^ 64 = i + 16 := Nat.mod_eq_of_lt (by omega)
      obtain ⟨j, hj, hij, hjL⟩ :=
        ih (i + 16) (total + SIMDCharacterCounter.blockPopcount str t i) (by omega) hi16 (by omega)
      refine ⟨j, ?_, by omega, hjL⟩
      simp only [SIMDCharacterCounter.simdLoop]
      rw [if_pos hc, hmod, hj]
      have hs := countRange_split str t (show i ≤ i + 16 by omega) hij
      rw [blockPopcount_eq str t i, hs, Nat.add_assoc]
    · refine ⟨i, ?_, le_refl i, h2⟩
      simp only [SIMDCharacterCounter.simdLoop]
      rw [if_neg hc, countRange_self, Nat.add_zero]

theorem simd_kernel_eq (str : List Nat) (L t : Nat) (hL : 16 ≤ L) (h64 : L < 2 ^ 64) :
    SIMDCharacterCounter.countCharacterOccurrences str L t = some (countRange str t 0 L) := by
  obtain ⟨j, hj, h0j, hjL⟩ :=
    simdLoop_terminates str t L hL h64 (L / 16 + 2) 0 0 (by omega) (by omega) (by omega)
  unfold SIMDCharacterCounter.countCharacterOccurrences
  rw [if_pos hL, hj, Nat.zero_add]
  show some (countRange str t 0 j + countRange str t j L) = some (countRange str t 0 L)
  rw [← countRange_split str t (by omega) hjL]

/-! ### The serial counter computes the same denotation -/

theorem serial_fold_eq (str : List Nat) :
    ∀ (n : Nat) (m0 : Nat → Option Nat) (c : Nat),
      ((List.range n).foldl (fun m i => mapIncr m (byteAt str i)) m0) c
        = if countRange str c 0 n = 0 then m0 c
          else some ((m0 c).getD 0 + countRange str c 0 n) := by
  intro n
  induction n with
  | zero => intro m0 c; simp [countRange]
  | succ k ih =>
    intro m0 c
    rw [List.range_succ, List.foldl_append, List.foldl_cons, List.foldl_nil,
      countRange_zero_succ]
    show mapIncr ((List.range k).foldl (fun m i => mapIncr m (byteAt str i)) m0)
        (byteAt str k) c = _
    by_cases hck : c = byteAt str k
    · rw [hck]
      simp only [mapIncr, if_pos rfl, beq_self_eq_true, if_true]
      rw [ih]
      by_cases hz : countRange str (byteAt str k) 0 k = 0
      · rw [if_pos hz, hz]
        simp
      · rw [if_neg hz, if_neg (by omega)]
        simp [Nat.add_assoc]
    · have hbeq : (byteAt str k == c) = false :=
        beq_eq_false_iff_ne.mpr (fun h => hck h.symm)
      simp only [mapIncr, if_neg hck, hbeq, Bool.false_eq_true, if_false]
      rw [ih]
      simp

theorem serial_countAll_eq (str : List Nat) (L c : Nat) :
    SerialCharacterCounter.countAllCharacters str L c
      = if countRange str c 0 (L - 1) = 0 then none
        else some (countRange str c 0 (L - 1)) := by
  have h := serial_fold_eq str (L - 1) (fun _ => none) c
  simp only [SerialCharacterCounter.countAllCharacters]
  rw [h]
  by_cases hz : countRange str c 0 (L - 1) = 0
  · rw [if_pos hz, if_pos hz]
  · rw [if_neg hz, if_neg hz]
    simp

theorem serial_countChar_eq (str : List Nat) (L t : Nat) :
    SerialCharacterCounter.countCharacter str L t = countRange str t 0 (L - 1) := by
  rw [SerialCharacterCounter.countCharacter, serial_countAll_eq]
  by_cases hz : countRange str t 0 (L - 1) = 0
  · rw [if_pos hz, hz]; rfl
  · rw [if_neg hz]; rfl

theorem findUnique_eq (str : List Nat) :
    ∀ (n : Nat) (c : Nat),
      SIMDCharacterCounter.findUniqueCharacters str n c
        = if countRange str c 0 n = 0 then none else some 0 := by
  have key : ∀ (n : Nat) (m0 : Nat → Option Nat) (c : Nat),
      ((List.range n).foldl (fun m i => fun x => if x = byteAt str i then some 0 else m x) m0) c
        = if countRange str c 0 n = 0 then m0 c else some 0 := by
    intro n
    induction n with
    | zero => intro m0 c; simp [countRange]
    | succ k ih =>
      intro m0 c
      rw [List.range_succ, List.foldl_append, List.foldl_cons, List.foldl_nil,
        countRange_zero_succ]
      show (fun x => if x = byteAt str k then some 0
          else ((List.range k).foldl (fun m i => fun x => if x = byteAt str i then some 0 else m x) m0) x) c
        = _
      by_cases hck : c = byteAt str k
      · rw [hck]
        simp only [if_pos rfl, beq_self_eq_true, if_true]
        rw [if_neg (by omega)]
      · have hbeq : (byteAt str k == c) = false :=
          beq_eq_false_iff_ne.mpr (fun h => hck h.symm)
        simp only [if_neg hck, hbeq, Bool.false_eq_true, if_false]
        rw [ih]
        simp
  intro n c
  exact key n (fun _ => none) c

/-! ### Full-frequency equivalence above the 16-byte boundary -/

theorem simd_countAll_eq_serial (str : List Nat) (L : Nat) (hL : 17 ≤ L) (h64 : L < 2 ^ 64) :
    SIMDCharacterCounter.countAllCharacters str L
      = some (SerialCharacterCounter.countAllCharacters str L) := by
  unfold SIMDCharacterCounter.countAllCharacters
  rw [if_pos (Or.inr (by omega))]
  congr 1
  funext c
  rw [findUnique_eq, serial_countAll_eq]
  by_cases hz : countRange str c 0 (L - 1) = 0
  · rw [if_pos hz, if_pos hz, if_pos rfl]
  · rw [if_neg hz, if_neg hz, if_neg (by simp)]
    exact simd_kernel_eq str (L - 1) c (by omega) (by omega)

/-! ### Relating the denotation to list membership and counts -/

theorem countRange_take (str : List Nat) (c : Nat) :
    ∀ n, n ≤ str.length → countRange str c 0 n = (str.take n).count c := by
  intro n
  induction n with
  | zero => intro h; simp [countRange]
  | succ k ih =>
    intro h
    have hk : k < str.length := by omega
    rw [countRange_zero_succ, ih (by omega), List.take_succ, List.count_append]
    congr 1
    rw [List.getElem?_eq_getElem hk]
    show (if byteAt str k == c then 1 else 0) = List.count c [str[k]]
    have hb : byteAt str k = str[k] := by
      simp [byteAt, List.getD_eq_getElem?_getD, List.getElem?_eq_getElem hk]
    rw [hb]
    simp [List.count_cons]

theorem serial_value_count (str : List Nat) (L c : Nat) (h2 : L - 1 ≤ str.length) :
    (SerialCharacterCounter.countAllCharacters str L c).getD 0 = (str.take (L - 1)).count c := by
  rw [serial_countAll_eq]
  by_cases hz : countRange str c 0 (L - 1) = 0
  · rw [if_pos hz]
    rw [← countRange_take str c (L - 1) h2, hz]
    rfl
  · rw [if_neg hz, ← countRange_take str c (L - 1) h2]
    rfl

theorem serial_support_iff (str : List Nat) (L c : Nat) (h2 : L - 1 ≤ str.length) :
    SerialCharacterCounter.countAllCharacters str L c ≠ none ↔ c ∈ str.take (L - 1) := by
  rw [serial_countAll_eq, ← List.count_pos_iff,
    ← countRange_take str c (L - 1) h2]
  by_cases hz : countRange str c 0 (L - 1) = 0
  · rw [if_pos hz]
    simp [hz]
  · rw [if_neg hz]
    simp
    omega

theorem serial_sum_eq (str : List Nat) (L : Nat) (h2 : L - 1 ≤ str.length) :
    ((str.take (L - 1)).dedup.map
        (fun c => (SerialCharacterCounter.countAllCharacters str L c).getD 0)).sum = L - 1 := by
  have hmap : ((str.take (L - 1)).dedup.map
        (fun c => (SerialCharacterCounter.countAllCharacters str L c).getD 0))
      = ((str.take (L - 1)).dedup.map (fun c => (str.take (L - 1)).count c)) := by
    apply List.map_congr_left
    intro a _
    exact serial_value_count str L a h2
  rw [hmap, List.sum_map_count_dedup_eq_length, List.length_take]
  omega

/-! ### Properties of the generator's store sequence -/

theorem charSizeOf_bounds (lead : Nat) : 2 ≤ charSizeOf lead ∧ charSizeOf lead ≤ 4 := by
  unfold charSizeOf
  split_ifs <;> omega

theorem genWrites_bounds (R : RngModel) :
    ∀ (fuel cl t i : Nat) (p : Nat × Nat),
      p ∈ RandomStringGenerator.genWrites R fuel cl t i → i ≤ p.1 ∧ p.1 < cl := by
  intro fuel
  induction fuel with
  | zero =>
    intro cl t i p hp
    simp [RandomStringGenerator.genWrites] at hp
  | succ n ih =>
    intro cl t i p hp
    simp only [RandomStringGenerator.genWrites] at hp
    split at hp
    · split at hp
      · split at hp
        · simp at hp
        · rcases List.mem_cons.mp hp with rfl | hp2
          · exact ⟨le_refl _, by omega⟩
          rcases List.mem_append.mp hp2 with hm | hr
          · obtain ⟨j, hj, rfl⟩ := List.mem_map.mp hm
            have hj2 := List.mem_range.mp hj
            have hcs := charSizeOf_bounds (R.d2 (t + 1))
            show i ≤ i + 1 + j ∧ i + 1 + j < cl
            omega
          · have h3 := ih cl (t + charSizeOf (R.d2 (t + 1)) + 1)
              (i + charSizeOf (R.d2 (t + 1))) p hr
            omega
      · rcases List.mem_cons.mp hp with rfl | hp2
        · exact ⟨le_refl _, by omega⟩
        · have h3 := ih cl (t + 2) (i + 1) p hp2
          omega
    · simp at hp

theorem genWrites_values (R : RngModel)
    (hd1 : ∀ n, 32 ≤ R.d1 n ∧ R.d1 n ≤ 126)
    (hd2 : ∀ n, 194 ≤ R.d2 n ∧ R.d2 n ≤ 244) :
    ∀ (fuel cl t i : Nat) (p : Nat × Nat),
      p ∈ RandomStringGenerator.genWrites R fuel cl t i → writableByte p.2 := by
  intro fuel
  induction fuel with
  | zero =>
    intro cl t i p hp
    simp [RandomStringGenerator.genWrites] at hp
  | succ n ih =>
    intro cl t i p hp
    simp only [RandomStringGenerator.genWrites] at hp
    split at hp
    · split at hp
      · split at hp
        · simp at hp
        · rcases List.mem_cons.mp hp with rfl | hp2
          · exact Or.inr (Or.inr (hd2 (t + 1)))
          rcases List.mem_append.mp hp2 with hm | hr
          · obtain ⟨j, hj, rfl⟩ := List.mem_map.mp hm
            have hmod : R.d1 (t + 2 + j) % 64 < 64 := Nat.mod_lt _ (by omega)
            exact Or.inr (Or.inl (by simp; omega))
          · exact ih cl (t + charSizeOf (R.d2 (t + 1)) + 1)
              (i + charSizeOf (R.d2 (t + 1))) p hr
      · rcases List.mem_cons.mp hp with rfl | hp2
        · exact Or.inl (hd1 (t + 1))
        · exact ih cl (t + 2) (i + 1) p hp2
    · simp at hp

/-! ### Applying a store sequence to a buffer -/

theorem applyWrites_nil (init : List Nat) : RandomStringGenerator.applyWrites init [] = init :=
  rfl

theorem applyWrites_cons (init : List Nat) (w : Nat × Nat) (ws : List (Nat × Nat)) :
    RandomStringGenerator.applyWrites init (w :: ws)
      = RandomStringGenerator.applyWrites (init.set w.1 w.2) ws :=
  rfl

theorem applyWrites_length (ws : List (Nat × Nat)) :
    ∀ init : List Nat, (RandomStringGenerator.applyWrites init ws).length = init.length := by
  induction ws with
  | nil => intro init; rfl
  | cons w ws ih =>
    intro init
    rw [applyWrites_cons, ih, List.length_set]

theorem applyWrites_not_mem (ws : List (Nat × Nat)) :
    ∀ (init : List Nat) (j : Nat), j ∉ ws.map Prod.fst →
      (RandomStringGenerator.applyWrites init ws)[j]? = init[j]? := by
  induction ws with
  | nil => intro init j h; rfl
  | cons w ws ih =>
    intro init j h
    rw [List.map_cons] at h
    have h1 : w.1 ≠ j := fun he => h (by rw [he]; exact List.mem_cons_self _ _)
    have h2 : j ∉ ws.map Prod.fst := fun he => h (List.mem_cons_of_mem _ he)
    rw [applyWrites_cons, ih _ _ h2, List.getElem?_set_ne h1]

theorem applyWrites_agree (ws : List (Nat × Nat)) :
    ∀ (init1 init2 : List Nat) (j : Nat), init1.length = init2.length →
      (init1[j]? = init2[j]? ∨ j ∈ ws.map Prod.fst) →
      (RandomStringGenerator.applyWrites init1 ws)[j]?
        = (RandomStringGenerator.applyWrites init2 ws)[j]? := by
  induction ws with
  | nil =>
    intro i1 i2 j hl h
    rcases h with h | h
    · exact h
    · simp at h
  | cons w ws ih =>
    intro i1 i2 j hl h
    rw [applyWrites_cons, applyWrites_cons]
    apply ih _ _ _ (by rw [List.length_set, List.length_set, hl])
    by_cases hw : j ∈ ws.map Prod.fst
    · exact Or.inr hw
    · left
      by_cases hj : w.1 = j
      · by_cases hlt : j < i1.length
        · rw [← hj] at hlt ⊢
          rw [List.getElem?_set_self hlt, List.getElem?_set_self (by omega)]
        · rw [List.getElem?_eq_none (by rw [List.length_set]; omega),
            List.getElem?_eq_none (by rw [List.length_set]; omega)]
      · rw [List.getElem?_set_ne hj, List.getElem?_set_ne hj]
        rcases h with h | h
        · exact h
        · rw [List.map_cons] at h
          rcases List.mem_cons.mp h with h | h
          · exact absurd h.symm hj
          · exact absurd h hw

theorem applyWrites_mem_or (ws : List (Nat × Nat)) :
    ∀ (init : List Nat) (j : Nat),
      (RandomStringGenerator.applyWrites init ws)[j]? = init[j]?
        ∨ ∃ v, (j, v) ∈ ws ∧ (RandomStringGenerator.applyWrites init ws)[j]? = some v := by
  induction ws with
  | nil => intro init j; left; rfl
  | cons w ws ih =>
    intro init j
    rw [applyWrites_cons]
    rcases ih (init.set w.1 w.2) j with h | ⟨v, hv, he⟩
    · by_cases hj : w.1 = j
      · by_cases hlt : j < init.length
        · right
          refine ⟨w.2, ?_, ?_⟩
          · rw [← hj]
            exact List.mem_cons_self _ _
          · rw [h, ← hj]
            exact List.getElem?_set_self (by omega)
        · left
          rw [h, List.getElem?_eq_none (by rw [List.length_set]; omega),
            List.getElem?_eq_none (by omega)]
      · left
        rw [h, List.getElem?_set_ne hj]
    · right
      exact ⟨v, List.mem_cons_of_mem _ hv, he⟩

/-! ### Behaviour of a single fill -/

theorem generateRandomUTF8_eq (R : RngModel) (init : List Nat) (L : Nat) (hL : 1 ≤ L) :
    RandomStringGenerator.generateRandomUTF8 R init L
      = some ((RandomStringGenerator.applyWrites init
          (RandomStringGenerator.genWrites R (L - 1) (L - 1) 0 0)).set (L - 1) 0) := by
  unfold RandomStringGenerator.generateRandomUTF8
  rw [if_neg (by omega)]

theorem generateRandomUTF8_length (R : RngModel) (init : List Nat) (L : Nat) (r : List Nat)
    (hL : 1 ≤ L) (h : RandomStringGenerator.generateRandomUTF8 R init L = some r) :
    r.length = init.length := by
  rw [generateRandomUTF8_eq R init L hL] at h
  cases Option.some.inj h
  rw [List.length_set, applyWrites_length]

theorem generateRandomUTF8_sentinel (R : RngModel) (init : List Nat) (L : Nat) (r : List Nat)
    (hL : 1 ≤ L) (hlen : init.length = L)
    (h : RandomStringGenerator.generateRandomUTF8 R init L = some r) :
    r[L - 1]? = some 0 := by
  rw [generateRandomUTF8_eq R init L hL] at h
  cases Option.some.inj h
  exact List.getElem?_set_self (by rw [applyWrites_length]; omega)

theorem generateRandomUTF8_unwritten (R : RngModel) (init : List Nat) (L : Nat) (r : List Nat)
    (j : Nat) (hL : 1 ≤ L)
    (h : RandomStringGenerator.generateRandomUTF8 R init L = some r)
    (hj : j < L - 1)
    (hnw : j ∉ (RandomStringGenerator.genWrites R (L - 1) (L - 1) 0 0).map Prod.fst) :
    r[j]? = init[j]? := by
  rw [generateRandomUTF8_eq R init L hL] at h
  cases Option.some.inj h
  rw [List.getElem?_set_ne (by omega), applyWrites_not_mem _ _ _ hnw]

theorem generateRandomUTF8_byte_origin (R : RngModel) (init : List Nat) (L : Nat)
    (r : List Nat) (j : Nat) (hL : 1 ≤ L)
    (h : RandomStringGenerator.generateRandomUTF8 R init L = some r) (hj : j < L - 1) :
    r[j]? = init[j]?
      ∨ ∃ v, (j, v) ∈ RandomStringGenerator.genWrites R (L - 1) (L - 1) 0 0 ∧ r[j]? = some v := by
  rw [generateRandomUTF8_eq R init L hL] at h
  cases Option.some.inj h
  rw [List.getElem?_set_ne (by omega)]
  exact applyWrites_mem_or _ init j

theorem generateRandomUTF8_agree (R : RngModel) (L : Nat) (init1 init2 : List Nat)
    (r1 r2 : List Nat) (hL : 1 ≤ L) (hl1 : init1.length = L) (hl2 : init2.length = L)
    (h1 : RandomStringGenerator.generateRandomUTF8 R init1 L = some r1)
    (h2 : RandomStringGenerator.generateRandomUTF8 R init2 L = some r2)
    (j : Nat)
    (hj : j ∈ (RandomStringGenerator.genWrites R (L - 1) (L - 1) 0 0).map Prod.fst ∨ j = L - 1) :
    r1[j]? = r2[j]? := by
  rw [generateRandomUTF8_eq R init1 L hL] at h1
  rw [generateRandomUTF8_eq R init2 L hL] at h2
  cases Option.some.inj h1
  cases Option.some.inj h2
  rcases hj with hj | rfl
  · have hjlt : j < L - 1 := by
      obtain ⟨p, hp, rfl⟩ := List.mem_map.mp hj
      exact (genWrites_bounds R (L - 1) (L - 1) 0 0 p hp).2
    rw [List.getElem?_set_ne (by omega), List.getElem?_set_ne (by omega)]
    exact applyWrites_agree _ init1 init2 j (by omega) (Or.inr hj)
  · rw [List.getElem?_set_self (by rw [applyWrites_length]; omega),
      List.getElem?_set_self (by rw [applyWrites_length]; omega)]

/-! ### Allocator arithmetic and record-map lemmas -/

theorem one_le_of_isPowerOfTwo {A : Nat} (h : isPowerOfTwo A = true) : 1 ≤ A := by
  unfold isPowerOfTwo at h
  simp only [Bool.and_eq_true, decide_eq_true_eq] at h
  omega

theorem alignUp_spec (A p : Nat) (hA : 1 ≤ A) :
    p ≤ alignUp A p ∧ alignUp A p ≤ p + (A - 1) ∧ alignUp A p % A = 0 := by
  have hd := Nat.div_add_mod (p + A - 1) A
  have hm : (p + A - 1) % A < A := Nat.mod_lt _ (by omega)
  refine ⟨?_, ?_, ?_⟩
  · unfold alignUp
    rw [Nat.mul_comm]
    omega
  · unfold alignUp
    rw [Nat.mul_comm]
    omega
  · unfold alignUp
    exact Nat.mul_mod_left _ _

theorem stdAlign_ok (A L raw : Nat) (hA : 1 ≤ A) :
    stdAlign A L raw (L + A - 1) = some (alignUp A raw) := by
  have h := alignUp_spec A raw hA
  unfold stdAlign
  rw [if_pos (by omega)]

theorem generateAlignedString_ok (raw L A : Nat) (st : AllocState)
    (hA : isPowerOfTwo A = true) (hL : L ≠ 0) :
    RandomStringGenerator.generateAlignedString (some raw) L A st
      = (Except.ok (alignUp A raw),
         ⟨(alignUp A raw, raw) :: mapEraseKey st.records (alignUp A raw)⟩) := by
  unfold RandomStringGenerator.generateAlignedString
  rw [if_neg (by simp [hA]), if_neg hL]
  show (match stdAlign A L raw (L + A - 1) with
    | none => (Except.error AllocError.alignFailError, st)
    | some aligned =>
        (Except.ok aligned, ⟨(aligned, raw) :: mapEraseKey st.records aligned⟩)) = _
  rw [stdAlign_ok A L raw (one_le_of_isPowerOfTwo hA)]

theorem mapLookup_nil (p : Nat) : mapLookup [] p = none :=
  rfl

theorem mapLookup_cons (a r p : Nat) (rs : List (Nat × Nat)) :
    mapLookup ((a, r) :: rs) p = if a = p then some r else mapLookup rs p := by
  unfold mapLookup
  by_cases h : a = p
  · rw [if_pos h]
    rw [List.find?_cons_of_pos _ (by simp [h])]
    rfl
  · rw [if_neg h]
    rw [List.find?_cons_of_neg _ (by simp [h])]

theorem mapLookup_eq_none_iff (rs : List (Nat × Nat)) (p : Nat) :
    mapLookup rs p = none ↔ ∀ a ∈ rs, a.1 ≠ p := by
  unfold mapLookup
  rw [Option.map_eq_none', List.find?_eq_none]
  constructor
  · intro h a ha
    have := h a ha
    simpa using this
  · intro h a ha
    simpa using h a ha

theorem mapEraseKey_cons (a : Nat × Nat) (rs : List (Nat × Nat)) (p : Nat) :
    mapEraseKey (a :: rs) p
      = if a.1 = p then mapEraseKey rs p else a :: mapEraseKey rs p := by
  unfold mapEraseKey
  rw [List.filter_cons]
  by_cases h : a.1 = p
  · rw [if_pos h, if_neg (by simp [h])]
  · rw [if_neg h, if_pos (by simp [h])]

theorem mapEraseKey_of_lookup_none (rs : List (Nat × Nat)) (p : Nat)
    (h : mapLookup rs p = none) : mapEraseKey rs p = rs := by
  unfold mapEraseKey
  rw [List.filter_eq_self]
  intro a ha
  have := (mapLookup_eq_none_iff rs p).mp h a ha
  simpa using this

theorem mapLookup_eraseKey_self (rs : List (Nat × Nat)) (p : Nat) :
    mapLookup (mapEraseKey rs p) p = none := by
  rw [mapLookup_eq_none_iff]
  intro a ha
  have := (List.mem_filter.mp ha).2
  simpa using this

theorem mapLookup_eraseKey_ne (rs : List (Nat × Nat)) (p q : Nat) (h : q ≠ p) :
    mapLookup (mapEraseKey rs p) q = mapLookup rs q := by
  induction rs with
  | nil => rfl
  | cons a rs ih =>
    obtain ⟨a1, a2⟩ := a
    rw [mapEraseKey_cons]
    by_cases h1 : a1 = p
    · rw [if_pos h1, ih, mapLookup_cons, if_neg (by omega)]
    · rw [if_neg h1, mapLookup_cons, mapLookup_cons, ih]

theorem length_eraseKey_of_lookup (rs : List (Nat × Nat)) (p raw : Nat)
    (hnd : (rs.map Prod.fst).Nodup) (h : mapLookup rs p = some raw) :
    (mapEraseKey rs p).length + 1 = rs.length := by
  induction rs with
  | nil => exact absurd h (by simp [mapLookup])
  | cons a rs ih =>
    obtain ⟨a1, a2⟩ := a
    rw [List.map_cons, List.nodup_cons] at hnd
    rw [mapEraseKey_cons]
    by_cases h1 : a1 = p
    · rw [if_pos h1]
      have hpn : mapLookup rs p = none := by
        rw [mapLookup_eq_none_iff]
        intro b hb hbp
        exact hnd.1 (List.mem_map.mpr ⟨b, hb, by rw [hbp, h1]⟩)
      rw [mapEraseKey_of_lookup_none rs p hpn]
      simp
    · rw [mapLookup_cons, if_neg h1] at h
      rw [if_neg h1, List.length_cons, List.length_cons, ih hnd.2 h]

theorem keysNodup_eraseKey (rs : List (Nat × Nat)) (p : Nat)
    (h : (rs.map Prod.fst).Nodup) : ((mapEraseKey rs p).map Prod.fst).Nodup :=
  ((List.filter_sublist rs).map Prod.fst).nodup h

theorem not_mem_keys_eraseKey (rs : List (Nat × Nat)) (p : Nat) :
    p ∉ (mapEraseKey rs p).map Prod.fst := by
  intro h
  obtain ⟨a, ha, hap⟩ := List.mem_map.mp h
  have := (List.mem_filter.mp ha).2
  simp [hap] at this

theorem keysNodup_generateAlignedString (m : Option Nat) (L A : Nat) (st : AllocState)
    (h : keysNodup st) :
    keysNodup (RandomStringGenerator.generateAlignedString m L A st).2 := by
  unfold RandomStringGenerator.generateAlignedString
  split_ifs with h1 h2
  · exact h
  · exact h
  · cases m with
    | none => exact h
    | some raw =>
      cases hs : stdAlign A L raw (L + A - 1) with
      | none =>
        show keysNodup (match stdAlign A L raw (L + A - 1) with
          | none => (Except.error AllocError.alignFailError, st)
          | some aligned =>
              (Except.ok aligned, ⟨(aligned, raw) :: mapEraseKey st.records aligned⟩)).2
        rw [hs]
        exact h
      | some al =>
        show keysNodup (match stdAlign A L raw (L + A - 1) with
          | none => (Except.error AllocError.alignFailError, st)
          | some aligned =>
              (Except.ok aligned, ⟨(aligned, raw) :: mapEraseKey st.records aligned⟩)).2
        rw [hs]
        show ((al, raw) :: mapEraseKey st.records al).map Prod.fst |>.Nodup
        rw [List.map_cons, List.nodup_cons]
        exact ⟨not_mem_keys_eraseKey st.records al, keysNodup_eraseKey st.records al h⟩

theorem freeAlignedString_found (st : AllocState) (p raw : Nat)
    (h : mapLookup st.records p = some raw) :
    RandomStringGenerator.freeAlignedString st p = (some raw, ⟨mapEraseKey st.records p⟩) := by
  unfold RandomStringGenerator.freeAlignedString
  rw [h]

theorem freeAlignedString_missing (st : AllocState) (p : Nat)
    (h : mapLookup st.records p = none) :
    RandomStringGenerator.freeAlignedString st p = (none, st) := by
  unfold RandomStringGenerator.freeAlignedString
  rw [h]

theorem keysNodup_freeAlignedString (st : AllocState) (p : Nat) (h : keysNodup st) :
    keysNodup (RandomStringGenerator.freeAlignedString st p).2 := by
  cases hm : mapLookup st.records p with
  | none => rw [freeAlignedString_missing st p hm]; exact h
  | some raw =>
    rw [freeAlignedString_found st p raw hm]
    exact keysNodup_eraseKey st.records p h

theorem keysNodup_runOps (ops : List AllocOp) :
    ∀ st : AllocState, keysNodup st → keysNodup (runOps st ops) := by
  induction ops with
  | nil => intro st h; exact h
  | cons op rest ih =>
    intro st h
    cases op with
    | alloc m L A => exact ih _ (keysNodup_generateAlignedString m L A st h)
    | dealloc p => exact ih _ (keysNodup_freeAlignedString st p h)

/-! ### Claim-level theorems start below. -/

/-- C1 counterexample: at the minimum buffer length 16 the claim fails.  The
source invokes the vector kernel with content length L - 1 = 15; its block
loop guard `i <= length - 16` wraps in `size_t` and the kernel never
returns a count (modelled result `none`), while the scalar counter returns
15, so the two counters do not return equal values on this buffer. -/
theorem vectorScalarEquivFailsAtMinLength :
    SIMDCharacterCounter.countCharacterOccurrences minBuffer 15 97 = none ∧
    SerialCharacterCounter.countCharacter minBuffer 16 97 = 15 := by
  constructor
  · rfl
  · rfl

/-- C1 (amended): for every buffer of length L with 17 ≤ L (content region
of at least one full 16-byte block) and every target byte, the vector
kernel, invoked as the source invokes it (content length L - 1), returns
exactly the scalar counter's count: the number of positions i in [0, L-1)
with buffer[i] equal to the target. -/
theorem vectorScalarEquiv (str : List Nat) (L T : Nat)
    (h17 : 17 ≤ L) (_hlen : L ≤ str.length) (h64 : L < 2 ^ 64) :
    SIMDCharacterCounter.countCharacterOccurrences str (L - 1) T
      = some (SerialCharacterCounter.countCharacter str L T) := by
  rw [serial_countChar_eq, simd_kernel_eq str (L - 1) T (by omega) (by omega)]

/-- C1 witness: the amended equivalence evaluated on the concrete 17-byte
buffer of sixteen 97-bytes plus sentinel, target 97. -/
theorem vectorScalarEquivWitness :
    SIMDCharacterCounter.countCharacterOccurrences seventeenBuffer 16 97
      = some (SerialCharacterCounter.countCharacter seventeenBuffer 17 97) :=
  vectorScalarEquiv seventeenBuffer 17 97 (by omega) (by decide) (by norm_num)

/-- C2 (code bug): with a buffer of length 16, content length exactly 15,
the claim (and spec) requires the vector path to process zero 16-byte
blocks and fall through to the scalar remainder.  The code instead computes
the block-loop bound `length - 16` in `size_t`, which wraps to 2^64 - 1, so
the guard `i <= 2^64 - 1` holds forever: the kernel produces no count
(first conjunct), and the block loop fails to exit under every iteration
budget (second conjunct) — it reads the sentinel and past the buffer
instead of leaving bytes at index >= 15 untouched. -/
theorem simdKernelDivergesAtContentFifteen :
    SIMDCharacterCounter.countCharacterOccurrences minBuffer 15 97 = none ∧
    ∀ fuel total,
      SIMDCharacterCounter.simdLoop minBuffer 97 (2 ^ 64 - 1) fuel 0 total = none := by
  constructor
  · rfl
  · intro fuel total
    exact simdLoop_none_of_wrap minBuffer 97 (2 ^ 64 - 1) (by omega) fuel 0 total
      (by omega) (by omega)

/-- C3 counterexample: at buffer length 16 the vector full-frequency routine
produces no table at all (its per-key kernel calls never return, modelled
`none`), while the scalar frequency table exists and maps byte 97 to 15 —
so the two full-frequency results are not the same mapping on every
buffer. -/
theorem countAllEquivFailsAtMinLength :
    SIMDCharacterCounter.countAllCharacters minBuffer 16 = none ∧
    SerialCharacterCounter.countAllCharacters minBuffer 16 97 = some 15 := by
  constructor
  · rfl
  · rfl

/-- C3 (amended): for every buffer of length L with 17 ≤ L, the vector
full-frequency result (scalar pre-pass over the distinct content bytes, one
vector kernel call per distinct byte) is exactly the scalar counter's
frequency table: the same partial map from byte values to counts — same
key set and same count for every key. -/
theorem countAllSimdEqSerial (str : List Nat) (L : Nat)
    (h17 : 17 ≤ L) (_hlen : L ≤ str.length) (h64 : L < 2 ^ 64) :
    SIMDCharacterCounter.countAllCharacters str L
      = some (SerialCharacterCounter.countAllCharacters str L) :=
  simd_countAll_eq_serial str L h17 h64

/-- C3 witness: the amended full-frequency equivalence evaluated on the
concrete 17-byte buffer. -/
theorem countAllSimdEqSerialWitness :
    SIMDCharacterCounter.countAllCharacters seventeenBuffer 17
      = some (SerialCharacterCounter.countAllCharacters seventeenBuffer 17) :=
  countAllSimdEqSerial seventeenBuffer 17 (by omega) (by decide) (by norm_num)

/-- C4 counterexample: filling two buffers from the same oracle (same seed,
reset between the calls) does not make all L bytes equal.  With the
admissible oracle `fourByteRng` (constant draws 32 and 240, inside the
distribution ranges [32,126] and [194,244]) and length 16, the generator
breaks at i = 12 and leaves content indices 12..14 unwritten, so each
buffer keeps its own prior byte there: the two fills disagree at index
12. -/
theorem fillResetIdentityFails :
    ((RandomStringGenerator.generateRandomUTF8 fourByteRng (List.replicate 16 0) 16).getD
        [])[12]? = some 0 ∧
    ((RandomStringGenerator.generateRandomUTF8 fourByteRng (List.replicate 16 1) 16).getD
        [])[12]? = some 1 := by
  constructor
  · rfl
  · rfl

/-- C4 (amended): two fills driven by the same oracle (same seed, reset
between the calls) perform the identical store sequence, so the two
resulting buffers agree at every index the generator writes and at the
sentinel index L - 1; only indices the generator never writes (which keep
each buffer's prior bytes) may differ. -/
theorem fillResetAgreeOnWritten (R : RngModel) (L : Nat) (init1 init2 r1 r2 : List Nat)
    (hL : 1 ≤ L) (hl1 : init1.length = L) (hl2 : init2.length = L)
    (h1 : RandomStringGenerator.generateRandomUTF8 R init1 L = some r1)
    (h2 : RandomStringGenerator.generateRandomUTF8 R init2 L = some r2)
    (j : Nat)
    (hj : j ∈ (RandomStringGenerator.genWrites R (L - 1) (L - 1) 0 0).map Prod.fst
      ∨ j = L - 1) :
    r1[j]? = r2[j]? :=
  generateRandomUTF8_agree R L init1 init2 r1 r2 hL hl1 hl2 h1 h2 j hj

/-- C4 witness: the agreement theorem evaluated at oracle `fourByteRng`,
length 16, two different initial buffers, at the written index 0. -/
theorem fillResetAgreeOnWrittenWitness :
    ([240, 160, 160, 160, 240, 160, 160, 160, 240, 160, 160, 160, 0, 0, 0, 0] :
        List Nat)[0]?
      = ([240, 160, 160, 160, 240, 160, 160, 160, 240, 160, 160, 160, 1, 1, 1, 0] :
        List Nat)[0]? :=
  fillResetAgreeOnWritten fourByteRng 16 (List.replicate 16 0) (List.replicate 16 1)
    [240, 160, 160, 160, 240, 160, 160, 160, 240, 160, 160, 160, 0, 0, 0, 0]
    [240, 160, 160, 160, 240, 160, 160, 160, 240, 160, 160, 160, 1, 1, 1, 0]
    (by omega) (by decide) (by decide) (by decide) (by decide) 0 (Or.inl (by decide))

/-- C5 counterexample: the fill does not keep every content byte in the
printable-ASCII range [32,126].  With the admissible oracle `twoByteRng`
(constant draws 32 and 194) and length 16, the byte written at content
index 0 is the UTF-8 lead byte 194, which is outside [32,126]. -/
theorem fillPrintableAsciiFails :
    ((RandomStringGenerator.generateRandomUTF8 twoByteRng (List.replicate 16 50) 16).getD
        [])[0]? = some 194 ∧
    ¬ (32 ≤ 194 ∧ 194 ≤ 126) := by
  constructor
  · rfl
  · decide

/-- C5 (amended): for every admissible oracle (dist1 draws in [32,126],
dist2 draws in [194,244]) and every length L ≥ 2, after the fill the byte
at index L - 1 is the sentinel 0, and every content byte either keeps the
buffer's prior value (the generator stopped before writing it) or was
written with a byte from one of the generator's three ranges: printable
ASCII [32,126], UTF-8 continuation [128,191], or UTF-8 lead [194,244]. -/
theorem fillByteRanges (R : RngModel) (L : Nat) (init r : List Nat)
    (hd1 : ∀ n, 32 ≤ R.d1 n ∧ R.d1 n ≤ 126)
    (hd2 : ∀ n, 194 ≤ R.d2 n ∧ R.d2 n ≤ 244)
    (hL : 2 ≤ L) (hlen : init.length = L)
    (h : RandomStringGenerator.generateRandomUTF8 R init L = some r) :
    r[L - 1]? = some 0 ∧
    ∀ j, j < L - 1 → r[j]? = init[j]? ∨ ∃ v, writableByte v ∧ r[j]? = some v := by
  constructor
  · exact generateRandomUTF8_sentinel R init L r (by omega) hlen h
  · intro j hj
    rcases generateRandomUTF8_byte_origin R init L r j (by omega) h hj with h1 | ⟨v, hv, he⟩
    · exact Or.inl h1
    · exact Or.inr ⟨v, genWrites_values R hd1 hd2 (L - 1) (L - 1) 0 0 (j, v) hv, he⟩

/-- C5 witness: the sentinel conclusion of the range theorem evaluated at
oracle `twoByteRng`, length 16; the fill result is also computed
explicitly. -/
theorem fillByteRangesWitness :
    RandomStringGenerator.generateRandomUTF8 twoByteRng (List.replicate 16 50) 16
        = some [194, 160, 194, 160, 194, 160, 194, 160, 194, 160, 194, 160, 194, 160, 50, 0] ∧
    ([194, 160, 194, 160, 194, 160, 194, 160, 194, 160, 194, 160, 194, 160, 50, 0] :
        List Nat)[15]? = some 0 :=
  ⟨by decide,
   (fillByteRanges twoByteRng 16 (List.replicate 16 50)
      [194, 160, 194, 160, 194, 160, 194, 160, 194, 160, 194, 160, 194, 160, 50, 0]
      (fun n => ⟨by simp [twoByteRng], by simp [twoByteRng]⟩)
      (fun n => ⟨by simp [twoByteRng], by simp [twoByteRng]⟩)
      (by omega) (by decide) (by decide)).1⟩

/-- C6: for every length L ≥ 16, every alignment A in {1,2,4,8,16,32,64}
and every raw heap address, a successful allocate returns a pointer P with
P mod A = 0, and the L bytes starting at P lie inside the raw block of
L + A - 1 bytes requested from the heap: raw ≤ P and
P + L ≤ raw + (L + A - 1). -/
theorem allocateAlignmentAndBounds (L A raw : Nat) (st : AllocState) (P : Nat)
    (st2 : AllocState) (hL : 16 ≤ L) (hA : A ∈ [1, 2, 4, 8, 16, 32, 64])
    (h : RandomStringGenerator.generateAlignedString (some raw) L A st
      = (Except.ok P, st2)) :
    P % A = 0 ∧ raw ≤ P ∧ P + L ≤ raw + (L + A - 1) := by
  have hpow : isPowerOfTwo A = true := by
    fin_cases hA <;> rfl
  have hA1 : 1 ≤ A := one_le_of_isPowerOfTwo hpow
  rw [generateAlignedString_ok raw L A st hpow (by omega)] at h
  have hP : alignUp A raw = P := Except.ok.inj (congrArg Prod.fst h)
  obtain ⟨hs1, hs2, hs3⟩ := alignUp_spec A raw hA1
  rw [← hP]
  exact ⟨hs3, hs1, by omega⟩

/-- C6 witness: allocate with length 16, alignment 16, raw address 5
returns the aligned pointer 16, which satisfies all three bounds. -/
theorem allocateAlignmentAndBoundsWitness :
    RandomStringGenerator.generateAlignedString (some 5) 16 16 ⟨[]⟩
        = (Except.ok 16, ⟨[(16, 5)]⟩) ∧
    (16 : Nat) % 16 = 0 ∧ 5 ≤ 16 ∧ 16 + 16 ≤ 5 + (16 + 16 - 1) :=
  ⟨by rfl,
   allocateAlignmentAndBounds 16 16 5 ⟨[]⟩ 16 ⟨[(16, 5)]⟩ (by omega) (by decide) (by rfl)⟩

/-- C7: the allocator's error behaviour.  (1) When the alignment is not a
power of two the call fails with the alignment error for every possible
malloc outcome — the heap is never consulted, and the state is returned
unchanged.  (2) Under the guards (power-of-two alignment, nonzero length)
the call fails with the allocation error exactly when the underlying malloc
returns null.  (3) On every error path the record map is unchanged. -/
theorem allocateErrorPaths (L A : Nat) (st : AllocState) :
    (isPowerOfTwo A = false →
      ∀ m, RandomStringGenerator.generateAlignedString m L A st
            = (Except.error AllocError.alignmentError, st)) ∧
    (isPowerOfTwo A = true → L ≠ 0 →
      ∀ m : Option Nat,
        ((RandomStringGenerator.generateAlignedString m L A st).1
            = Except.error AllocError.allocationError ↔ m = none)) ∧
    (∀ (m : Option Nat) (e : AllocError),
      (RandomStringGenerator.generateAlignedString m L A st).1 = Except.error e →
      (RandomStringGenerator.generateAlignedString m L A st).2 = st) := by
  refine ⟨?_, ?_, ?_⟩
  · intro hpf m
    unfold RandomStringGenerator.generateAlignedString
    rw [if_pos hpf]
  · intro hpt hL0 m
    constructor
    · intro he
      cases m with
      | none => rfl
      | some raw =>
        rw [generateAlignedString_ok raw L A st hpt hL0] at he
        exact absurd he (by simp)
    · intro hm
      subst hm
      unfold RandomStringGenerator.generateAlignedString
      rw [if_neg (by simp [hpt]), if_neg hL0]
  · intro m e he
    by_cases hpf : isPowerOfTwo A = false
    · unfold RandomStringGenerator.generateAlignedString
      rw [if_pos hpf]
    · have hpt : isPowerOfTwo A = true := by
        cases hb : isPowerOfTwo A
        · exact absurd hb hpf
        · rfl
      by_cases hL0 : L = 0
      · unfold RandomStringGenerator.generateAlignedString
        rw [if_neg (by simp [hpt]), if_pos hL0]
      · cases m with
        | none =>
          unfold RandomStringGenerator.generateAlignedString
          rw [if_neg (by simp [hpt]), if_neg hL0]
        | some raw =>
          rw [generateAlignedString_ok raw L A st hpt hL0] at he
          exact absurd he (by simp)

/-- C7 witness: alignment 3 is not a power of two; allocate rejects it with
the alignment error and an unchanged (empty) record map, even though the
malloc oracle could have produced address 5. -/
theorem allocateErrorPathsWitness :
    RandomStringGenerator.generateAlignedString (some 5) 16 3 ⟨[]⟩
        = (Except.error AllocError.alignmentError, ⟨[]⟩) :=
  (allocateErrorPaths 16 3 ⟨[]⟩).1 (by rfl) (some 5)

/-- C8: the record map holds exactly one aligned-to-raw entry per live
buffer.  (1) A successful allocate of a fresh pointer P adds exactly the
entry (P, raw): the lookup of P yields raw, the map grows by one entry, and
every other key is unchanged.  (2) Freeing a recorded pointer returns
(releases) exactly its raw pointer and removes exactly that entry: the
pointer is no longer found, the map shrinks by one, and every other key is
unchanged.  (3) Freeing an unknown pointer (including a second free of the
same pointer) returns no raw pointer and leaves the state unchanged,
signalling no error.  (4) The unique-key invariant is preserved by every
sequence of allocate/free calls. -/
theorem recordMapLifecycle :
    (∀ (raw L A : Nat) (st : AllocState) (P : Nat) (st2 : AllocState),
      RandomStringGenerator.generateAlignedString (some raw) L A st = (Except.ok P, st2) →
      mapLookup st.records P = none →
      st2.records = (P, raw) :: st.records ∧
      mapLookup st2.records P = some raw ∧
      st2.records.length = st.records.length + 1 ∧
      ∀ q, q ≠ P → mapLookup st2.records q = mapLookup st.records q) ∧
    (∀ (st : AllocState) (p raw : Nat), keysNodup st → mapLookup st.records p = some raw →
      RandomStringGenerator.freeAlignedString st p
          = (some raw, ⟨mapEraseKey st.records p⟩) ∧
      mapLookup (mapEraseKey st.records p) p = none ∧
      (mapEraseKey st.records p).length + 1 = st.records.length ∧
      ∀ q, q ≠ p → mapLookup (mapEraseKey st.records p) q = mapLookup st.records q) ∧
    (∀ (st : AllocState) (p : Nat), mapLookup st.records p = none →
      RandomStringGenerator.freeAlignedString st p = (none, st)) ∧
    (∀ (st : AllocState) (ops : List AllocOp), keysNodup st → keysNodup (runOps st ops)) := by
  refine ⟨?_, ?_, ?_, ?_⟩
  · intro raw L A st P st2 h hfresh
    by_cases hpf : isPowerOfTwo A = false
    · exfalso
      have := (allocateErrorPaths L A st).1 hpf (some raw)
      rw [this] at h
      exact Except.noConfusion (congrArg Prod.fst h)
    · have hpt : isPowerOfTwo A = true := by
        cases hb : isPowerOfTwo A
        · exact absurd hb hpf
        · rfl
      by_cases hL0 : L = 0
      · exfalso
        unfold RandomStringGenerator.generateAlignedString at h
        rw [if_neg (by simp [hpt]), if_pos hL0] at h
        exact Except.noConfusion (congrArg Prod.fst h)
      · rw [generateAlignedString_ok raw L A st hpt hL0] at h
        have hP : alignUp A raw = P := Except.ok.inj (congrArg Prod.fst h)
        have hst : (⟨(alignUp A raw, raw) :: mapEraseKey st.records (alignUp A raw)⟩ :
            AllocState) = st2 := congrArg Prod.snd h
        rw [← hst, hP, mapEraseKey_of_lookup_none st.records P hfresh]
        refine ⟨rfl, ?_, by simp, ?_⟩
        · rw [mapLookup_cons, if_pos rfl]
        · intro q hq
          rw [mapLookup_cons, if_neg (by omega)]
  · intro st p raw hnd hlook
    refine ⟨freeAlignedString_found st p raw hlook, mapLookup_eraseKey_self st.records p,
      length_eraseKey_of_lookup st.records p raw hnd hlook, ?_⟩
    intro q hq
    exact mapLookup_eraseKey_ne st.records p q hq
  · intro st p h
    exact freeAlignedString_missing st p h
  · intro st ops h
    exact keysNodup_runOps ops st h

/-- C8 witness: freeing the recorded pointer 16 in a one-entry map releases
raw pointer 5 and leaves the empty map. -/
theorem recordMapLifecycleWitness :
    RandomStringGenerator.freeAlignedString ⟨[(16, 5)]⟩ 16 = (some 5, ⟨[]⟩) := by
  have h := (recordMapLifecycle.2.1 ⟨[(16, 5)]⟩ 16 5 (by unfold keysNodup; decide) (by rfl)).1
  exact h

/-- C9 counterexample: at buffer length 16 the vector full-frequency
routine returns no table at all (its kernel calls never return), so there
is no value multiset summing to 15 = L - 1 for that counter. -/
theorem countAllValuesSumFailsSimd :
    ¬ ∃ m, SIMDCharacterCounter.countAllCharacters minBuffer 16 = some m := by
  rintro ⟨m, hm⟩
  have h0 : SIMDCharacterCounter.countAllCharacters minBuffer 16 = none := rfl
  rw [h0] at hm
  exact Option.noConfusion hm

/-- C9 (amended): the values of the scalar full-frequency table sum to
L - 1 for every buffer of length L ≥ 1 (each content byte is counted in
exactly one entry, the sentinel in none), and the table's keys are exactly
the bytes occurring in the content region; the vector full-frequency
result, whenever it exists (L ≥ 17), is a table whose values also sum to
L - 1. -/
theorem countAllValuesSum (str : List Nat) (L : Nat)
    (_h1 : 1 ≤ L) (h2 : L - 1 ≤ str.length) :
    (((str.take (L - 1)).dedup.map
        (fun c => (SerialCharacterCounter.countAllCharacters str L c).getD 0)).sum
        = L - 1 ∧
      ∀ c, SerialCharacterCounter.countAllCharacters str L c ≠ none ↔
        c ∈ str.take (L - 1)) ∧
    (17 ≤ L → L < 2 ^ 64 →
      ∃ m, SIMDCharacterCounter.countAllCharacters str L = some m ∧
        ((str.take (L - 1)).dedup.map (fun c => (m c).getD 0)).sum = L - 1) := by
  refine ⟨⟨serial_sum_eq str L h2, fun c => serial_support_iff str L c h2⟩, ?_⟩
  intro h17 h64
  exact ⟨SerialCharacterCounter.countAllCharacters str L,
    simd_countAll_eq_serial str L h17 h64, serial_sum_eq str L h2⟩

/-- C9 witness: on the concrete 17-byte buffer the scalar table's values
sum to 16 = L - 1. -/
theorem countAllValuesSumWitness :
    ((seventeenBuffer.take 16).dedup.map
        (fun c => (SerialCharacterCounter.countAllCharacters seventeenBuffer 17 c).getD 0)).sum
      = 16 :=
  (countAllValuesSum seventeenBuffer 17 (by omega) (by decide)).1.1

/-- C10: the fill does not guarantee that every content byte is written.
First part, for every oracle, length L ≥ 1 and prior buffer contents: the
fill returns a buffer of the same length, always writes the sentinel 0 at
index L - 1, all generator stores hit indices strictly below L - 1 (never
at or beyond the sentinel), and every content byte the generator does not
store keeps the buffer's prior value.  Second part, a concrete run where
only a proper prefix is written: with oracle `fourByteRng` (4-byte UTF-8
sequences) and length 16, the generator breaks at i = 12 because
12 + 4 >= 15, and content indices 12..14 keep the prior junk marker 7. -/
theorem fillPrefixOnlyBehavior :
    (∀ (R : RngModel) (L : Nat) (init : List Nat), 1 ≤ L → init.length = L →
      ∃ r, RandomStringGenerator.generateRandomUTF8 R init L = some r ∧
        r.length = L ∧ r[L - 1]? = some 0 ∧
        (∀ p ∈ RandomStringGenerator.genWrites R (L - 1) (L - 1) 0 0, p.1 < L - 1) ∧
        (∀ j, j < L - 1 →
          j ∉ (RandomStringGenerator.genWrites R (L - 1) (L - 1) 0 0).map Prod.fst →
          r[j]? = init[j]?)) ∧
    (RandomStringGenerator.generateRandomUTF8 fourByteRng (List.replicate 16 7) 16).getD []
      = [240, 160, 160, 160, 240, 160, 160, 160, 240, 160, 160, 160, 7, 7, 7, 0] := by
  constructor
  · intro R L init hL hlen
    refine ⟨_, generateRandomUTF8_eq R init L hL, ?_, ?_, ?_, ?_⟩
    · rw [List.length_set, applyWrites_length, hlen]
    · exact generateRandomUTF8_sentinel R init L _ hL hlen (generateRandomUTF8_eq R init L hL)
    · intro p hp
      exact (genWrites_bounds R (L - 1) (L - 1) 0 0 p hp).2
    · intro j hj hnw
      exact generateRandomUTF8_unwritten R init L _ j hL
        (generateRandomUTF8_eq R init L hL) hj hnw
  · decide

/-- C10 witness: the universal part evaluated at oracle `fourByteRng`,
length 16 and prior contents all 7. -/
theorem fillPrefixOnlyBehaviorWitness :
    ∃ r, RandomStringGenerator.generateRandomUTF8 fourByteRng (List.replicate 16 7) 16
          = some r ∧
      r.length = 16 ∧ r[15]? = some 0 ∧
      (∀ p ∈ RandomStringGenerator.genWrites fourByteRng 15 15 0 0, p.1 < 15) ∧
      (∀ j, j < 15 →
        j ∉ (RandomStringGenerator.genWrites fourByteRng 15 15 0 0).map Prod.fst →
        r[j]? = (List.replicate 16 7)[j]?) :=
  fillPrefixOnlyBehavior.1 fourByteRng 16 (List.replicate 16 7) (by omega) (by decide)
